import Mathlib

/-!
Verification of the audio-synchronized media assembly engine of the
Youtube-Automation repository (src/nodes/video_assembly.py).

The Python source is shallowly embedded: times are rationals (Python floats
carry exact decimal inputs in all scenarios of interest), fallible code
returns `Except PyErr`, and the mutable job-state dict is an explicit record.
Each definition cites the source lines it embeds.  String rendering of the
.ass subtitle file (timestamps, karaoke tags) is kept at the structured
level: events carry their words and times, from which the rendered per-word
centisecond tags are derived.
-/

/-- Python exception kinds that the embedded code can raise. -/
inductive PyErr where
  | keyError
  | indexError
  | zeroDivisionError
  | calledProcessError
deriving DecidableEq, Repr

/-- Python `str.isspace` on the ASCII whitespace characters
(`' '`, `\t`, `\n`, `\v`, `\f`, `\r`); the repository only ever feeds
ASCII alignment text. -/
def pyIsSpace (c : Char) : Bool :=
  c = ' ' || c = Char.ofNat 9 || c = Char.ofNat 10 ||
  c = Char.ofNat 11 || c = Char.ofNat 12 || c = Char.ofNat 13

/-- Python `str.strip()`: drop leading and trailing whitespace. -/
def pyStrip (l : List Char) : List Char :=
  ((l.dropWhile pyIsSpace).reverse.dropWhile pyIsSpace).reverse

/-- The character class kept by `re.sub(r'[^a-zA-Z0-9,\.\!\?\']', '', _)`
in video_assembly.py line 33. -/
def allowedChar (c : Char) : Bool :=
  ('a' ≤ c && c ≤ 'z') || ('A' ≤ c && c ≤ 'Z') || ('0' ≤ c && c ≤ '9') ||
  c = ',' || c = '.' || c = '!' || c = '?' || c = Char.ofNat 39

/-- Python `str.upper()` (ASCII). -/
def pyUpper (s : String) : String :=
  String.mk (s.data.map Char.toUpper)

/-- video_assembly.py line 33: `clean = re.sub(r'[^a-zA-Z0-9,\.\!\?\']', '',
cur_word.strip())` followed by `.upper()` on line 34. -/
def normalizeWord (l : List Char) : String :=
  String.mk (((pyStrip l).filter allowedChar).map Char.toUpper)

/-- Python truthiness test `not word_start` on line 30: `word_start` is falsy
when it is `None` or exactly `0.0`. -/
def pyFalsy : Option ℚ → Bool
  | none => true
  | some v => v = 0

/-- Value of a `word_start` that is known to be set (`None` is unreachable at
the single use site; it is read only after line 30 has assigned it). -/
def optVal : Option ℚ → ℚ
  | none => 0
  | some v => v

/-- A word-level timing record produced by the segmenter
(video_assembly.py line 34). -/
structure Word where
  text : String
  start : ℚ
  stop : ℚ
deriving DecidableEq, Repr

/-- The alignment input (video_assembly.py lines 24-26). -/
structure AlignmentData where
  characters : List Char
  character_start_times_seconds : List ℚ
  character_end_times_seconds : List ℚ
deriving DecidableEq, Repr

/-- Loop state of the word-segmentation scan
(video_assembly.py line 28: `words, cur_word, word_start = [], "", None`). -/
structure SegSt where
  words : List Word
  cur : List Char
  ws : Option ℚ
deriving DecidableEq, Repr

/-- The per-character scan of video_assembly.py lines 29-37, for the suffix
`cs` of the character list starting at index `i`; `n` is the total character
count.  List indexing out of range raises `IndexError`; note that line 30
only reads `starts[i]` when `word_start` is falsy, and `ends[i]` is read
only at a boundary (line 34). -/
def segLoop (starts ends : List ℚ) (n : Nat) :
    Nat → List Char → SegSt → Except PyErr (List Word)
  | _, [], st => .ok st.words
  | i, ch :: rest, st =>
    match (if pyFalsy st.ws then starts[i]? else st.ws) with
    | none => .error .indexError
    | some wsv =>
      if pyIsSpace ch || i == n - 1 then
        match ends[i]? with
        | none => .error .indexError
        | some e =>
          let words' := if pyStrip st.cur = [] then st.words
            else st.words ++ [⟨normalizeWord st.cur, wsv, e⟩]
          segLoop starts ends n (i + 1) rest ⟨words', [], none⟩
      else
        segLoop starts ends n (i + 1) rest ⟨st.words, st.cur ++ [ch], some wsv⟩

/-- The AlignmentSegmenter: video_assembly.py lines 24-37. -/
def segmentWords (a : AlignmentData) : Except PyErr (List Word) :=
  segLoop a.character_start_times_seconds a.character_end_times_seconds
    a.characters.length 0 a.characters ⟨[], [], none⟩

/-- A caption line event; `chunk` is the list of words shown on the line,
`s`/`e` the event's start and end (video_assembly.py lines 49-52). -/
structure CaptionEvent where
  chunk : List Word
  s : ℚ
  e : ℚ
deriving DecidableEq, Repr

/-- video_assembly.py lines 49-50: `s_t, e_t = chunk[0]["start"],
chunk[-1]["end"]`. -/
def create_line (chunk : List Word) : CaptionEvent :=
  ⟨chunk, ((chunk.head?).map Word.start).getD 0, ((chunk.getLast?).map Word.stop).getD 0⟩

/-- The per-word durations of an event (the quantities rendered as karaoke
tags on line 51: `w['end'] - w['start']` for each word of the chunk). -/
def per_word_durations (ev : CaptionEvent) : List ℚ :=
  ev.chunk.map (fun w => w.stop - w.start)

/-- Python `int()` truncation toward zero. -/
def pyInt (q : ℚ) : ℤ :=
  if 0 ≤ q then ⌊q⌋ else ⌈q⌉

/-- The centisecond karaoke tag values of an event, as rendered on line 51:
`int((w['end'] - w['start']) * 100)`. -/
def per_word_ktags (ev : CaptionEvent) : List ℤ :=
  ev.chunk.map (fun w => pyInt ((w.stop - w.start) * 100))

/-- video_assembly.py line 56: `any(p in word_obj["text"] for p in
["!", ".", "?"])`. -/
def hasFlushPunct (t : String) : Bool :=
  t.data.any (fun c => c = '!' || c = '.' || c = '?')

/-- The chunking loop of video_assembly.py lines 54-61: accumulate words into
`chunk`; flush when the chunk reaches `maxW` words or the current word's text
contains sentence punctuation; flush the remainder at the end. -/
def buildLoop (maxW : Nat) : List Word → List Word → List CaptionEvent → List CaptionEvent
  | [], chunk, acc => if chunk = [] then acc else acc ++ [create_line chunk]
  | w :: rest, chunk, acc =>
    let c' := chunk ++ [w]
    if maxW ≤ c'.length || hasFlushPunct w.text then
      buildLoop maxW rest [] (acc ++ [create_line c'])
    else
      buildLoop maxW rest c' acc

/-- The CaptionTrackBuilder: video_assembly.py lines 48-61. -/
def buildEvents (words : List Word) (maxW : Nat) : List CaptionEvent :=
  buildLoop maxW words [] []

/-- The structured content of the generated .ass subtitle file: the caption
events plus the trailing call-to-action event (lines 63-65). -/
structure KaraokeOut where
  events : List CaptionEvent
  ctaStart : ℚ
  ctaEnd : ℚ
  ctaText : String
deriving DecidableEq, Repr

/-- video_assembly.py lines 19-69 (`generate_ass_karaoke`), at the structured
level: segment the alignment, chunk the words into caption events, and append
the CTA event spanning `[ends[-1], ends[-1] + pause_at_end]` with the
upper-cased topic comment (lines 64-65).  `ends[-1]` on an empty list raises
`IndexError`. -/
def generate_ass_karaoke (a : AlignmentData) (topic_comment : String)
    (pause_at_end : ℚ) (max_words : Nat := 4) : Except PyErr KaraokeOut := do
  let words ← segmentWords a
  let events := buildEvents words max_words
  match a.character_end_times_seconds.getLast? with
  | none => .error .indexError
  | some final_vo_time =>
    .ok ⟨events, final_vo_time, final_vo_time + pause_at_end, pyUpper topic_comment⟩

/-- video_assembly.py line 127: `stretch_factor = vo_duration /
total_scene_script_dur` (the caller guards the zero divisor, which would
raise `ZeroDivisionError` in Python). -/
def stretch_factor (vo_duration total_scene_script_dur : ℚ) : ℚ :=
  vo_duration / total_scene_script_dur

/-- The scaled (un-overlapped) scene durations: `Scene_Duration * stretch`
as on lines 131 and 144. -/
def scaled_durs (scene_durs : List ℚ) (stretch : ℚ) : List ℚ :=
  scene_durs.map (fun d => d * stretch)

/-- Running accumulation `cur_offset += ...` of the loop on lines 142-146. -/
def accumOffsets (acc : ℚ) : List ℚ → List ℚ
  | [] => []
  | d :: rest => (acc + d) :: accumOffsets (acc + d) rest

/-- The cross-fade offsets (video_assembly.py lines 142-146): for
`i = 1 .. n_images - 1`, `cur_offset` accumulates
`scenes[i-1]["Scene_Duration"] * stretch_factor`; the offsets are the
partial sums of the first `n_images - 1` scaled scene durations. -/
def crossfade_offsets (scene_durs : List ℚ) (stretch : ℚ) (n_images : Nat) : List ℚ :=
  accumOffsets 0 (scaled_durs (scene_durs.take (n_images - 1)) stretch)

/-- The per-scene render durations handed to the encoder (lines 129-132):
scaled duration plus the 0.5s transition overlap, or the trailing pause for
the last scene. -/
def calc_durs (scene_durs : List ℚ) (stretch pause_at_end : ℚ) (n_images : Nat) : List ℚ :=
  (List.range n_images).map (fun i =>
    scene_durs.getD i 0 * stretch + (if i < n_images - 1 then 1/2 else pause_at_end))

/-- The audio filters appearing in the ffmpeg audio mastering graph
(video_assembly.py lines 157-165).  `sidechaincompress` carries, in source
order, threshold, ratio `ra`, attack (ms) and release (ms). -/
inductive AFilter where
  | apad (pad_dur : ℚ)
  | asplit (n : Nat)
  | volume (v : ℚ)
  | aloop (loop : Int) (size : ℚ)
  | afadeOut (st d : ℚ)
  | sidechaincompress (threshold ra attack release : ℚ)
  | amix (inputs : Nat) (duration_longest : Bool) (weights : List ℚ)
deriving DecidableEq, Repr

/-- One `[in..]filter,filter,..[out..]` stage of the filter graph string. -/
structure FilterChain where
  inputs : List String
  filters : List AFilter
  outputs : List String
deriving DecidableEq, Repr

/-- The audio mastering graph, video_assembly.py lines 157-165, transcribed
label-for-label.  With music present (lines 158-163) the graph is: pad the
voice by the trailing pause and split it in two (`[vo_p1][vo_p2]`); attenuate,
loop indefinitely and fade out the music; duck the looped music under the
voice via a sidechain compressor; and mix `[vo_pad2]` (sic, as written on
line 162) with the ducked music.  Without music (line 165), only the voice
padding. -/
def audio_filter (vo_idx bg_idx : Nat) (pause_at_end fade_start : ℚ)
    (music : Bool) : List FilterChain :=
  if music then
    [ ⟨[toString vo_idx ++ ":a"], [.apad pause_at_end, .asplit 2], ["vo_p1", "vo_p2"]⟩,
      ⟨[toString bg_idx ++ ":a"],
        [.volume (12/100), .aloop (-1) 2000000000, .afadeOut fade_start 1], ["bg_loop"]⟩,
      ⟨["bg_loop", "vo_p1"], [.sidechaincompress (1/20) 12 20 200], ["bg_duck"]⟩,
      ⟨["vo_pad2", "bg_duck"], [.amix 2 true [1, 1]], ["a_final"]⟩ ]
  else
    [ ⟨[toString vo_idx ++ ":a"], [.apad pause_at_end], ["a_final"]⟩ ]

/-- All labels consumed as inputs by the chains of a filter graph. -/
def graphInputs (g : List FilterChain) : List String :=
  g.flatMap FilterChain.inputs

/-- All labels produced as outputs by the chains of a filter graph. -/
def graphOutputs (g : List FilterChain) : List String :=
  g.flatMap FilterChain.outputs

/-- External effects performed by the assembly driver, in program order. -/
inductive ExtCall where
  | readAlignment
  | probe
  | listMusicDir
  | writeAss
  | encode
  | syncCloud
deriving DecidableEq, Repr

/-- A scene entry of `state["script"]["scenes"]` (only `Scene_Duration` is
read by the assembly code). -/
structure Scene where
  Scene_Duration : ℚ
deriving DecidableEq, Repr

/-- The `state["script"]` dict; `scenes` is read with
`.get("scenes", [])` (line 112), so a missing key yields `[]`. -/
structure Script where
  scenes : Option (List Scene)
deriving DecidableEq, Repr

/-- The mutable job-state dict, restricted to the keys the assembly driver
reads or writes; `none` models an absent key. -/
structure PyState where
  row_index : Option Int
  image_paths : Option (List String)
  script : Option Script
  topic_comment : Option String
  isvideogenerated : Option Bool
  final_video_path : Option String
deriving DecidableEq, Repr

/-- The environment of one driver run: the file system, the alignment JSON
read (line 118), the ffprobe duration probe (lines 121-122), the randomly
selected background-music file among `bkg_music*.mp3` matches (lines
149-152, `none` when the pool is empty), and the encoder's exit status
(line 187). -/
structure Env where
  fileExists : String → Bool
  alignment : Except PyErr AlignmentData
  voDuration : Except PyErr ℚ
  music : Option String
  encodeOk : Bool

deriving instance DecidableEq for Except

/-- Result of one driver run: the returned state (or an uncaught exception)
plus the trace of external calls made. -/
structure RunResult where
  result : Except PyErr PyState
  calls : List ExtCall
deriving DecidableEq, Repr

/-- `config.OUTPUT_DIR`, abstracting the absolute base directory. -/
def OUTPUT_DIR : String := "assets"

/-- Python `f"..{row_id}.."` string interpolation of an optional int. -/
def pyStr : Option Int → String
  | none => "None"
  | some n => toString n

/-- video_assembly.py lines 100-101: the deterministic output artifact path
`os.path.join(OUTPUT_DIR, f"Video_Row_{row_id}.mp4")`. -/
def final_video_path_of (row_id : Option Int) : String :=
  OUTPUT_DIR ++ "/Video_Row_" ++ pyStr row_id ++ ".mp4"

/-- The `try:` block of video_assembly.py lines 116-196, with the trace of
external calls made before returning or raising.  Failure points, in program
order: the alignment JSON read (line 118), the duration probe (lines
121-122), `ZeroDivisionError` when the authored scene durations sum to zero
(line 127), `IndexError` when there are more images than scenes (lines
130-131 and 144), `KeyError`/`IndexError` inside `generate_ass_karaoke`
(line 167, which reads `state["row_index"]` on line 21), and
`CalledProcessError` on a nonzero encoder exit (line 187). -/
def tryBody (env : Env) (state : PyState) (scenes : List Scene)
    (image_files : List String) (topic : String) :
    Except PyErr PyState × List ExtCall :=
  match env.alignment with
  | .error er => (.error er, [.readAlignment])
  | .ok alignment_data =>
    match env.voDuration with
    | .error er => (.error er, [.readAlignment, .probe])
    | .ok vo_duration =>
      let pause_at_end : ℚ := 3/2
      let total_target_dur := vo_duration + pause_at_end
      let total_scene_script_dur := (scenes.map Scene.Scene_Duration).sum
      if total_scene_script_dur = 0 then
        (.error .zeroDivisionError, [.readAlignment, .probe])
      else
        let stretch := stretch_factor vo_duration total_scene_script_dur
        if scenes.length < image_files.length then
          (.error .indexError, [.readAlignment, .probe])
        else
          let _durs := calc_durs (scenes.map Scene.Scene_Duration) stretch
            pause_at_end image_files.length
          let _offsets := crossfade_offsets (scenes.map Scene.Scene_Duration)
            stretch image_files.length
          let vo_idx := image_files.length
          let bg_idx := image_files.length + 1
          let fade_start := total_target_dur - 1
          let _afilter := audio_filter vo_idx bg_idx pause_at_end fade_start
            env.music.isSome
          match state.row_index with
          | none => (.error .keyError, [.readAlignment, .probe, .listMusicDir])
          | some _ =>
            match generate_ass_karaoke alignment_data topic pause_at_end 4 with
            | .error er => (.error er, [.readAlignment, .probe, .listMusicDir])
            | .ok _ass =>
              if env.encodeOk then
                (.ok { state with
                        final_video_path := some (final_video_path_of state.row_index),
                        isvideogenerated := some true },
                 [.readAlignment, .probe, .listMusicDir, .writeAss, .encode, .syncCloud])
              else
                (.error .calledProcessError,
                 [.readAlignment, .probe, .listMusicDir, .writeAss, .encode])

/-- The AssemblyOrchestrator, video_assembly.py lines 97-205
(`video_stitching_slideshow`).  Lines 103-109: the cache short-circuit.
Lines 111-114 run OUTSIDE the `try:` block, so `state["script"]` on line 112
raises `KeyError` out of the function when the key is absent.  Lines 198-203
catch every exception raised inside the `try:` block and return the state
with `isvideogenerated = False`. -/
def video_stitching_slideshow (env : Env) (state : PyState) : RunResult :=
  let row_id := state.row_index
  let fvp := final_video_path_of row_id
  if env.fileExists fvp then
    ⟨.ok { state with isvideogenerated := some true, final_video_path := some fvp }, []⟩
  else
    let image_files := state.image_paths.getD []
    match state.script with
    | none => ⟨.error .keyError, []⟩
    | some script =>
      let scenes := script.scenes.getD []
      let topic := match state.topic_comment with
        | some t => if t = "" then "LIKE & FOLLOW FOR MORE!" else t
        | none => "LIKE & FOLLOW FOR MORE!"
      match tryBody env state scenes image_files topic with
      | (.ok st, calls) => ⟨.ok st, calls⟩
      | (.error _, calls) => ⟨.ok { state with isvideogenerated := some false }, calls⟩

/-- The `word_start` update of line 30 (`if not word_start: word_start =
starts[i]`), abstracted over the value read, for reasoning about the scan. -/
def wsUpd (ws : Option ℚ) (v : ℚ) : Option ℚ :=
  if pyFalsy ws then some v else ws

/-- First nonzero entry of a list of times (0 when there is none): the value
the falsy re-assignment of line 30 converges to. -/
def firstNonzero (l : List ℚ) : ℚ :=
  (l.find? (fun v => decide (v ≠ 0))).getD 0

/-- Scenario A of the spec: alignment text `"HI THERE!"`, 9 characters each
0.1s apart. -/
def scenarioA : AlignmentData :=
  ⟨['H', 'I', ' ', 'T', 'H', 'E', 'R', 'E', '!'],
   [0, 1/10, 2/10, 3/10, 4/10, 5/10, 6/10, 7/10, 8/10],
   [1/10, 2/10, 3/10, 4/10, 5/10, 6/10, 7/10, 8/10, 9/10]⟩

/-- The words the code actually produces on Scenario A. -/
def wordHI : Word := ⟨"HI", 1/10, 3/10⟩

/-- Second Scenario A word: the trailing `!` is consumed as the end-of-input
boundary (line 31) and never appended to `cur_word` (line 37), so the text is
`"THERE"`, while the word's end is still the `!` character's end time. -/
def wordTHERE : Word := ⟨"THERE", 3/10, 9/10⟩

/-- Alignment `"A BC "` with a timing gap between the two words
(the second word starts at 10 while the first ends at 3). -/
def gapAlignment : AlignmentData :=
  ⟨['A', ' ', 'B', 'C', ' '], [1, 2, 10, 11, 12], [2, 3, 11, 12, 13]⟩

/-- The single caption event produced on `gapAlignment`. -/
def gapEvent : CaptionEvent :=
  ⟨[⟨"A", 1, 3⟩, ⟨"BC", 10, 13⟩], 1, 13⟩

/-- Two characters but three start/end timestamps: the sequences differ in
length. -/
def mismatchedA : AlignmentData :=
  ⟨['H', 'I'], [1, 2, 99], [2, 3, 100]⟩

/-- Three characters but no start timestamps at all. -/
def mismatchedB : AlignmentData :=
  ⟨['A', 'B', ' '], [], [1, 2, 3]⟩

/-- Alignment `"@ A "`: the first raw word `"@"` is nonempty, so it survives
the `cur_word.strip()` guard of line 32, but normalization strips `@`,
leaving an empty text. -/
def punctOnlyA : AlignmentData :=
  ⟨['@', ' ', 'A', ' '], [1, 2, 3, 4], [2, 3, 4, 5]⟩

/-- An environment whose file system already contains every path (cache hit),
with benign values elsewhere. -/
def envCacheHit : Env :=
  ⟨fun _ => true, .ok scenarioA, .ok 12, none, true⟩

/-- An environment with no cached artifact and benign values elsewhere. -/
def envNoCache : Env :=
  ⟨fun _ => false, .ok scenarioA, .ok 12, none, true⟩

/-- A job state carrying only a row index: the `"script"` key is absent. -/
def stateRow7 : PyState :=
  ⟨some 7, none, none, none, none, none⟩

/-- The full karaoke output on Scenario A with the default CTA text and the
1.5s trailing pause. -/
def scenarioAOut : KaraokeOut :=
  ⟨[⟨[wordHI, wordTHERE], 1/10, 9/10⟩], 9/10, 12/5, "LIKE & FOLLOW FOR MORE!"⟩

lemma mem_of_getElemP {α : Type} {l : List α} {i : Nat} {a : α} (h : l[i]? = some a) : a ∈ l := by
  obtain ⟨hi, rfl⟩ := List.getElem?_eq_some.mp h
  exact List.getElem_mem hi

lemma mem_of_getLastP {α : Type} {l : List α} {a : α} (h : l.getLast? = some a) : a ∈ l := by
  rw [List.getLast?_eq_getElem?] at h
  exact mem_of_getElemP h

/-- In a list that is non-decreasing, the entry at `i` is a lower bound on
every entry at an index `≥ i`. -/
lemma pairwise_getElem_le {l : List ℚ} (hs : l.Pairwise (· ≤ ·)) {i : Nat} {v : ℚ}
    (hv : l[i]? = some v) : ∀ j, i ≤ j → ∀ y, l[j]? = some y → v ≤ y := by
  intro j hij y hy
  obtain ⟨hi, rfl⟩ := List.getElem?_eq_some.mp hv
  obtain ⟨hj, rfl⟩ := List.getElem?_eq_some.mp hy
  rcases Nat.eq_or_lt_of_le hij with rfl | hlt
  · exact le_refl _
  · exact List.pairwise_iff_getElem.mp hs i j hi hj hlt

/-- In a non-decreasing list, every member is at most the last entry. -/
lemma le_getLast_of_pairwise {l : List ℚ} (h : l.Pairwise (· ≤ ·)) {L : ℚ}
    (hL : l.getLast? = some L) : ∀ x ∈ l, x ≤ L := by
  induction l with
  | nil => intro x hx; cases hx
  | cons a t ih =>
    intro x hx
    cases t with
    | nil =>
      simp only [List.getLast?_singleton, Option.some.injEq] at hL
      rcases List.mem_singleton.mp hx with rfl
      exact le_of_eq hL
    | cons b u =>
      have hL' : (b :: u).getLast? = some L := by
        simpa [List.getLast?_cons_cons] using hL
      rcases List.mem_cons.mp hx with rfl | hx'
      · have hmem : L ∈ b :: u := mem_of_getLastP hL'
        exact (List.pairwise_cons.mp h).1 L hmem
      · exact ih (List.pairwise_cons.mp h).2 hL' x hx'

lemma dropWhile_eq_self_of_false {p : Char → Bool} {l : List Char}
    (h : ∀ c ∈ l, p c = false) : l.dropWhile p = l := by
  cases l with
  | nil => rfl
  | cons a t => simp [List.dropWhile_cons, h a (List.mem_cons_self a t)]

/-- `str.strip()` is the identity on whitespace-free text. -/
lemma pyStrip_of_no_space {l : List Char} (h : ∀ c ∈ l, pyIsSpace c = false) :
    pyStrip l = l := by
  unfold pyStrip
  rw [dropWhile_eq_self_of_false h,
      dropWhile_eq_self_of_false (by intro c hc; exact h c (List.mem_reverse.mp hc)),
      List.reverse_reverse]

/-- C1 (counterexample): on Scenario A (`"HI THERE!"`, 9 characters each
0.1s apart) the segmenter produces the words `["HI", "THERE"]`, not
`["HI", "THERE!"]`: the trailing `!`, being the final character, is treated
purely as a word boundary (line 31) and never appended to `cur_word`
(line 37), so the last word's text does NOT contain its trailing punctuation
character. -/
theorem scenarioA_last_word_drops_punct :
    segmentWords scenarioA = .ok [wordHI, wordTHERE] ∧
    [wordHI, wordTHERE].map Word.text ≠ ["HI", "THERE!"] := by
  constructor
  · norm_num +decide [segmentWords, scenarioA, segLoop, pyFalsy, pyIsSpace, pyStrip,
      allowedChar, normalizeWord, wordHI, wordTHERE, List.dropWhile]
  · simp +decide [wordHI, wordTHERE]

/-- C1 (amended): on Scenario A the segmenter produces exactly the words
`["HI", "THERE"]` (the final character is consumed as the end-of-input
boundary and excluded from the last word's text, though its end time still
closes the word), and the caption builder emits exactly one caption event
covering both words — flushed as the trailing partial chunk, since the `!`
was stripped from the text and thus triggers no punctuation flush. -/
theorem scenarioA_one_event_covering_both_words :
    generate_ass_karaoke scenarioA "LIKE & FOLLOW FOR MORE!" (3/2) 4 =
      .ok ⟨[⟨[wordHI, wordTHERE], 1/10, 9/10⟩], 9/10, 12/5,
           "LIKE & FOLLOW FOR MORE!"⟩ := by
  norm_num +decide [generate_ass_karaoke, segmentWords, scenarioA, segLoop, pyFalsy,
    pyIsSpace, pyStrip, allowedChar, normalizeWord, wordHI, wordTHERE, List.dropWhile,
    buildEvents, buildLoop, create_line, hasFlushPunct, pyUpper, Bind.bind, Except.bind]

/-- C2 (counterexample): on the alignment `"A BC "` whose two words are
separated by a timing gap (first word ends at 3, second starts at 10),
segmentation succeeds and produces one caption event whose per-word
durations sum to 5, while `event.end - event.start = 12`. -/
theorem gap_event_durations_do_not_sum :
    generate_ass_karaoke gapAlignment "X" (3/2) 4 =
      .ok ⟨[gapEvent], 13, 29/2, "X"⟩ ∧
    (per_word_durations gapEvent).sum ≠ gapEvent.e - gapEvent.s := by
  constructor
  · norm_num +decide [generate_ass_karaoke, segmentWords, gapAlignment, segLoop, pyFalsy,
      pyIsSpace, pyStrip, allowedChar, normalizeWord, gapEvent, List.dropWhile,
      buildEvents, buildLoop, create_line, hasFlushPunct, pyUpper, Bind.bind, Except.bind]
  · norm_num [per_word_durations, gapEvent]

/-- C4 (code bug): called on a state whose `"script"` key is absent (and
with no cached artifact), the assembly driver does not return a structured
failure: the `state["script"]` access on line 112 sits OUTSIDE the
`try:` block of lines 116-203, so the raw `KeyError` propagates to the
invoking process. -/
theorem missing_script_key_raises :
    video_stitching_slideshow envNoCache stateRow7 =
      ⟨.error .keyError, []⟩ := by
  norm_num [video_stitching_slideshow, envNoCache, stateRow7, final_video_path_of, pyStr]

/-- C5 (counterexample): the three alignment sequences of `mismatchedA`
differ in length (2 characters, 3 start times, 3 end times), yet the
segmenter does not fail at all — no length validation exists — and happily
returns a word built from the 2 characters, ignoring the extra timestamps. -/
theorem mismatched_lengths_do_not_fail :
    ¬ (mismatchedA.characters.length =
         mismatchedA.character_start_times_seconds.length ∧
       mismatchedA.characters.length =
         mismatchedA.character_end_times_seconds.length) ∧
    segmentWords mismatchedA = .ok [⟨"H", 1, 3⟩] := by
  constructor
  · decide
  · norm_num +decide [segmentWords, mismatchedA, segLoop, pyFalsy, pyIsSpace, pyStrip,
      allowedChar, normalizeWord, List.dropWhile]

/-- C5 (amended): the segmenter performs no length validation.  When the
timestamp sequences are longer than the character sequence it succeeds,
silently ignoring the extra entries; when a needed timestamp is missing it
raises a generic `IndexError` (caught upstream as an untyped failure) —
no `MalformedAlignment` error exists anywhere in the code. -/
theorem no_length_validation :
    segmentWords mismatchedA = .ok [⟨"H", 1, 3⟩] ∧
    segmentWords mismatchedB = .error .indexError := by
  constructor <;>
    norm_num +decide [segmentWords, mismatchedA, mismatchedB, segLoop, pyFalsy, pyIsSpace,
      pyStrip, allowedChar, normalizeWord, List.dropWhile]

/-- C6 (counterexample): on the alignment `"@ A "`, the word `"@"` has
nonempty raw text, so it passes the `cur_word.strip()` guard of line 32;
normalization then strips the `@`, and a word with EMPTY text appears in
the segmenter's output. -/
theorem empty_text_word_is_kept :
    segmentWords punctOnlyA = .ok [⟨"", 1, 3⟩, ⟨"A", 3, 5⟩] ∧
    ∃ w ∈ [(⟨"", 1, 3⟩ : Word), ⟨"A", 3, 5⟩], w.text = "" := by
  constructor
  · norm_num +decide [segmentWords, punctOnlyA, segLoop, pyFalsy, pyIsSpace, pyStrip,
      allowedChar, normalizeWord, List.dropWhile]
  · exact ⟨⟨"", 1, 3⟩, by simp, rfl⟩

/-- C7: Scenario B — three scenes with authored durations `[5,5,5]` and
measured voice duration `12` give `stretch_factor = 0.8`, scaled scene
durations `[4,4,4]`, and crossfade offsets `[4, 8]` (the offsets accumulate
the scaled durations of lines 142-146, not the render durations of lines
129-132, which add the 0.5s overlap and the trailing pause). -/
theorem scenarioB_timeline :
    stretch_factor 12 15 = 4/5 ∧
    scaled_durs [5, 5, 5] (stretch_factor 12 15) = [4, 4, 4] ∧
    crossfade_offsets [5, 5, 5] (stretch_factor 12 15) 3 = [4, 8] ∧
    calc_durs [5, 5, 5] (stretch_factor 12 15) (3/2) 3 = [9/2, 9/2, 11/2] := by
  refine ⟨?_, ?_, ?_, ?_⟩ <;>
    norm_num [stretch_factor, scaled_durs, crossfade_offsets, accumOffsets, calc_durs,
      List.range_succ]

/-- C8: when the output artifact already exists at its deterministic path,
the driver short-circuits (lines 103-109): it returns the state with
`isvideogenerated = True` and the final path set, makes NO external calls
(in particular never invokes the encoder), and a second run on the returned
state yields the very same result — the orchestrator is idempotent on an
already-published artifact. -/
theorem cache_hit_idempotent (env : Env) (st : PyState)
    (h : env.fileExists (final_video_path_of st.row_index) = true) :
    video_stitching_slideshow env st =
      ⟨.ok { st with isvideogenerated := some true,
                     final_video_path := some (final_video_path_of st.row_index) }, []⟩ ∧
    video_stitching_slideshow env
        { st with isvideogenerated := some true,
                  final_video_path := some (final_video_path_of st.row_index) } =
      ⟨.ok { st with isvideogenerated := some true,
                     final_video_path := some (final_video_path_of st.row_index) }, []⟩ := by
  unfold video_stitching_slideshow
  simp [h]

/-- C8 witness: the short-circuit at a concrete environment and state. -/
theorem cache_hit_idempotent_witness :
    video_stitching_slideshow envCacheHit stateRow7 =
      ⟨.ok { stateRow7 with isvideogenerated := some true,
                            final_video_path := some (final_video_path_of stateRow7.row_index) }, []⟩ ∧
    video_stitching_slideshow envCacheHit
        { stateRow7 with isvideogenerated := some true,
                         final_video_path := some (final_video_path_of stateRow7.row_index) } =
      ⟨.ok { stateRow7 with isvideogenerated := some true,
                            final_video_path := some (final_video_path_of stateRow7.row_index) }, []⟩ :=
  cache_hit_idempotent envCacheHit stateRow7 rfl

/-- C3 (code bug): the with-music audio graph of lines 157-163 does loop the
music indefinitely (`aloop=loop=-1`), fades it out over 1 second starting at
`total_target_dur - 1` (so the fade ends exactly at the total duration), and
ducks it with `sidechaincompress` (threshold 0.05, ratio 12, attack 20ms,
release 200ms) keyed by one copy of the padded voice — but the final
equal-weight `amix` consumes the label `[vo_pad2]`, which NO stage produces
(the voice split produces `[vo_p1]` and `[vo_p2]`, and `[vo_p2]` is consumed
nowhere), so the filter graph is rejected by the encoder whenever background
music is present.  Indices 3 and 4 are the voice and music input streams of
a three-image job (line 154). -/
theorem music_mix_consumes_undefined_label (pause total : ℚ) :
    audio_filter 3 4 pause (total - 1) true =
      [ ⟨["3:a"], [.apad pause, .asplit 2], ["vo_p1", "vo_p2"]⟩,
        ⟨["4:a"], [.volume (12/100), .aloop (-1) 2000000000,
                   .afadeOut (total - 1) 1], ["bg_loop"]⟩,
        ⟨["bg_loop", "vo_p1"], [.sidechaincompress (1/20) 12 20 200], ["bg_duck"]⟩,
        ⟨["vo_pad2", "bg_duck"], [.amix 2 true [1, 1]], ["a_final"]⟩ ] ∧
    "vo_pad2" ∈ graphInputs (audio_filter 3 4 pause (total - 1) true) ∧
    "vo_pad2" ∉ graphOutputs (audio_filter 3 4 pause (total - 1) true) ∧
    "vo_pad2" ∉ ["3:a", "4:a"] ∧
    "vo_p2" ∈ graphOutputs (audio_filter 3 4 pause (total - 1) true) ∧
    "vo_p2" ∉ graphInputs (audio_filter 3 4 pause (total - 1) true) := by
  refine ⟨?_, ?_, ?_, ?_, ?_, ?_⟩ <;>
    simp +decide [audio_filter, graphInputs, graphOutputs]

/-- Every event the chunking loop emits is `create_line` of its chunk. -/
lemma buildLoop_wf (maxW : Nat) :
    ∀ (rest chunk : List Word) (acc : List CaptionEvent),
      (∀ ev ∈ acc, ev = create_line ev.chunk) →
      ∀ ev ∈ buildLoop maxW rest chunk acc, ev = create_line ev.chunk := by
  intro rest
  induction rest with
  | nil =>
    intro chunk acc hacc ev hev
    simp only [buildLoop] at hev
    split at hev
    · exact hacc ev hev
    · rcases List.mem_append.mp hev with h | h
      · exact hacc ev h
      · rcases List.mem_singleton.mp h with rfl
        rfl
  | cons w rest ih =>
    intro chunk acc hacc ev hev
    simp only [buildLoop] at hev
    split at hev
    · refine ih [] (acc ++ [create_line (chunk ++ [w])]) ?_ ev hev
      intro ev' hev'
      rcases List.mem_append.mp hev' with h | h
      · exact hacc ev' h
      · rcases List.mem_singleton.mp h with rfl
        rfl
    · exact ih (chunk ++ [w]) acc hacc ev hev

/-- Telescoping: when consecutive words are contiguous (each word starts
where the previous one stopped), the per-word durations of a chunk sum to
last stop minus first start. -/
lemma sum_durs_of_contiguous :
    ∀ (l : List Word), List.Chain' (fun w w' => w'.start = w.stop) l →
      (l.map (fun w => w.stop - w.start)).sum =
        ((l.getLast?.map Word.stop).getD 0) - ((l.head?.map Word.start).getD 0) := by
  intro l
  induction l with
  | nil => intro _; simp
  | cons a t ih =>
    intro hc
    cases t with
    | nil => simp
    | cons b u =>
      have hab : b.start = a.stop := (List.chain'_cons.mp hc).1
      have ht := ih (List.chain'_cons.mp hc).2
      simp only [List.map_cons, List.sum_cons, List.getLast?_cons_cons, List.head?_cons,
        Option.map_some', Option.getD_some] at ht ⊢
      rw [ht, hab]
      ring

lemma create_line_s_cons (c0 : Word) (ctl : List Word) :
    (create_line (c0 :: ctl)).s = c0.start := by
  simp [create_line]

lemma create_line_e_mem {chunk : List Word} (h : chunk ≠ []) :
    ∃ wl ∈ chunk, (create_line chunk).e = wl.stop := by
  cases hL : chunk.getLast? with
  | none => exact absurd (List.getLast?_eq_none_iff.mp hL) h
  | some wl => exact ⟨wl, mem_of_getLastP hL, by simp [create_line, hL]⟩

/-- Invariant of the chunking loop: if the incoming word starts are
non-decreasing and every accumulated event starts no later than any
remaining word, the produced events have non-decreasing starts; and any
property `E` of word stops held by all remaining words and all accumulated
event ends holds of every produced event end. -/
lemma buildLoop_inv (maxW : Nat) (E : ℚ → Prop) :
    ∀ (rest chunk : List Word) (acc : List CaptionEvent),
      (((chunk ++ rest).map Word.start).Pairwise (· ≤ ·)) →
      ((acc.map CaptionEvent.s).Pairwise (· ≤ ·)) →
      (∀ ev ∈ acc, ∀ w ∈ chunk ++ rest, ev.s ≤ w.start) →
      (∀ ev ∈ acc, E ev.e) →
      (∀ w ∈ chunk ++ rest, E w.stop) →
      (((buildLoop maxW rest chunk acc).map CaptionEvent.s).Pairwise (· ≤ ·)) ∧
      (∀ ev ∈ buildLoop maxW rest chunk acc, E ev.e) := by
  intro rest
  induction rest with
  | nil =>
    intro chunk acc h1 h2 h3 h4 h5
    simp only [buildLoop]
    split
    · exact ⟨h2, h4⟩
    · next hc =>
      constructor
      · rw [List.map_append, List.pairwise_append]
        refine ⟨h2, by simp, ?_⟩
        intro a ha b hb
        simp only [List.map_cons, List.map_nil, List.mem_singleton] at hb
        obtain ⟨ev, hev, rfl⟩ := List.mem_map.mp ha
        subst hb
        rcases chunk with _ | ⟨c0, ctl⟩
        · exact absurd rfl hc
        · rw [create_line_s_cons]
          exact h3 ev hev c0 (by simp)
      · intro ev hev
        rcases List.mem_append.mp hev with h | h
        · exact h4 ev h
        · rcases List.mem_singleton.mp h with rfl
          obtain ⟨wl, hwl, he⟩ := create_line_e_mem hc
          rw [he]
          exact h5 wl (by simpa using hwl)
  | cons w rest ih =>
    intro chunk acc h1 h2 h3 h4 h5
    simp only [buildLoop]
    split
    · -- flush: recurse with empty chunk and the new event appended
      apply ih [] (acc ++ [create_line (chunk ++ [w])])
      · simp only [List.nil_append]
        rw [List.map_append, List.pairwise_append] at h1
        exact (List.pairwise_cons.mp (by simpa using h1.2.1)).2
      · rw [List.map_append, List.pairwise_append]
        refine ⟨h2, by simp, ?_⟩
        intro a ha b hb
        simp only [List.map_cons, List.map_nil, List.mem_singleton] at hb
        obtain ⟨ev, hev, rfl⟩ := List.mem_map.mp ha
        subst hb
        rcases chunk with _ | ⟨c0, ctl⟩
        · simp only [List.nil_append, create_line_s_cons]
          exact h3 ev hev w (by simp)
        · simp only [List.cons_append, create_line_s_cons]
          exact h3 ev hev c0 (by simp)
      · intro ev hev w' hw'
        simp only [List.nil_append] at hw'
        rcases List.mem_append.mp hev with h | h
        · exact h3 ev h w' (by simp [hw'])
        · rcases List.mem_singleton.mp h with rfl
          rcases chunk with _ | ⟨c0, ctl⟩
          · simp only [List.nil_append, create_line_s_cons]
            have h1' : List.Pairwise (· ≤ ·) ((w :: rest).map Word.start) := by
              simpa using h1
            exact (List.pairwise_cons.mp h1').1 w'.start
              (List.mem_map_of_mem Word.start hw')
          · simp only [List.cons_append, create_line_s_cons]
            have h1' : List.Pairwise (· ≤ ·)
                ((c0 :: (ctl ++ w :: rest)).map Word.start) := by
              simpa using h1
            exact (List.pairwise_cons.mp h1').1 w'.start
              (List.mem_map_of_mem Word.start (by simp [hw']))
      · intro ev hev
        rcases List.mem_append.mp hev with h | h
        · exact h4 ev h
        · rcases List.mem_singleton.mp h with rfl
          obtain ⟨wl, hwl, he⟩ := create_line_e_mem
            (by simp : chunk ++ [w] ≠ [])
          rw [he]
          apply h5
          rcases List.mem_append.mp hwl with h' | h'
          · exact List.mem_append.mpr (Or.inl h')
          · rcases List.mem_singleton.mp h' with rfl
            exact List.mem_append.mpr (Or.inr (by simp))
      · intro w' hw'
        simp only [List.nil_append] at hw'
        exact h5 w' (by simp [hw'])
    · -- no flush: the word joins the chunk
      apply ih (chunk ++ [w]) acc
      · simpa [List.append_assoc] using h1
      · exact h2
      · intro ev hev w' hw'
        apply h3 ev hev w'
        simpa [List.append_assoc] using hw'
      · exact h4
      · intro w' hw'
        apply h5 w'
        simpa [List.append_assoc] using hw'

/-- Invariant of the segmentation scan: with non-decreasing character start
times, the produced words have non-decreasing starts, and every produced
word's stop is an entry of the end-times list. -/
lemma segLoop_sorted (starts ends : List ℚ) (n : Nat)
    (hs : starts.Pairwise (· ≤ ·)) :
    ∀ (cs : List Char) (i : Nat) (st : SegSt) (res : List Word),
      ((st.words.map Word.start).Pairwise (· ≤ ·)) →
      (∀ w ∈ st.words, ∀ j, i ≤ j → ∀ y, starts[j]? = some y → w.start ≤ y) →
      (∀ w ∈ st.words, w.stop ∈ ends) →
      (∀ v, st.ws = some v →
        (∀ j, i ≤ j → ∀ y, starts[j]? = some y → v ≤ y) ∧
        ∀ w ∈ st.words, w.start ≤ v) →
      segLoop starts ends n i cs st = .ok res →
      ((res.map Word.start).Pairwise (· ≤ ·)) ∧ ∀ w ∈ res, w.stop ∈ ends := by
  intro cs
  induction cs with
  | nil =>
    intro i st res h1 h2 h3 h4 hok
    simp only [segLoop, Except.ok.injEq] at hok
    subst hok
    exact ⟨h1, h3⟩
  | cons ch rest ih =>
    intro i st res h1 h2 h3 h4 hok
    simp only [segLoop] at hok
    cases hws : (if pyFalsy st.ws then starts[i]? else st.ws) with
    | none => rw [hws] at hok; cases hok
    | some wsv =>
      rw [hws] at hok
      simp only at hok
      have hkey : (∀ j, i ≤ j → ∀ y, starts[j]? = some y → wsv ≤ y) ∧
          (∀ w ∈ st.words, w.start ≤ wsv) := by
        by_cases hf : pyFalsy st.ws = true
        · rw [if_pos hf] at hws
          refine ⟨pairwise_getElem_le hs hws, ?_⟩
          intro w hw
          exact h2 w hw i (le_refl i) wsv hws
        · rw [if_neg hf] at hws
          exact h4 wsv hws
      by_cases hb : (pyIsSpace ch || i == n - 1) = true
      · rw [if_pos hb] at hok
        cases he : ends[i]? with
        | none => rw [he] at hok; cases hok
        | some e =>
          rw [he] at hok
          simp only at hok
          by_cases hemp : pyStrip st.cur = []
          · rw [if_pos hemp] at hok
            refine ih (i + 1) ⟨st.words, [], none⟩ res h1 ?_ h3 (by simp) hok
            intro w hw j hj y hy
            exact h2 w hw j (le_trans (Nat.le_succ i) hj) y hy
          · rw [if_neg hemp] at hok
            refine ih (i + 1) ⟨st.words ++ [⟨normalizeWord st.cur, wsv, e⟩], [], none⟩
              res ?_ ?_ ?_ (by simp) hok
            · rw [List.map_append, List.pairwise_append]
              refine ⟨h1, by simp, ?_⟩
              intro a ha b hb'
              simp only [List.map_cons, List.map_nil, List.mem_singleton] at hb'
              obtain ⟨w, hw, rfl⟩ := List.mem_map.mp ha
              subst hb'
              exact hkey.2 w hw
            · intro w hw j hj y hy
              rcases List.mem_append.mp hw with h | h
              · exact h2 w h j (le_trans (Nat.le_succ i) hj) y hy
              · rcases List.mem_singleton.mp h with rfl
                exact hkey.1 j (le_trans (Nat.le_succ i) hj) y hy
            · intro w hw
              rcases List.mem_append.mp hw with h | h
              · exact h3 w h
              · rcases List.mem_singleton.mp h with rfl
                exact mem_of_getElemP he
      · rw [if_neg hb] at hok
        refine ih (i + 1) ⟨st.words, st.cur ++ [ch], some wsv⟩ res h1 ?_ h3 ?_ hok
        · intro w hw j hj y hy
          exact h2 w hw j (le_trans (Nat.le_succ i) hj) y hy
        · intro v hv
          simp only [Option.some.injEq] at hv
          subst hv
          exact ⟨fun j hj y hy => hkey.1 j (le_trans (Nat.le_succ i) hj) y hy, hkey.2⟩

/-- The AlignmentSegmenter preserves order: with non-decreasing start times,
produced word starts are non-decreasing, and each word's stop is one of the
input end times. -/
lemma segmentWords_sorted {a : AlignmentData}
    (hs : a.character_start_times_seconds.Pairwise (· ≤ ·)) {ws : List Word}
    (hok : segmentWords a = .ok ws) :
    ((ws.map Word.start).Pairwise (· ≤ ·)) ∧
    ∀ w ∈ ws, w.stop ∈ a.character_end_times_seconds := by
  refine segLoop_sorted _ _ _ hs a.characters 0 ⟨[], [], none⟩ ws ?_ ?_ ?_ ?_ hok
  · simp
  · simp
  · simp
  · simp

/-- C9: for every alignment whose start and end timestamp sequences are
non-decreasing and every non-negative trailing pause, whenever karaoke
generation succeeds the caption events are non-decreasing in start time, and
the appended call-to-action event (which starts at `ends[-1]`, line 64-65)
starts at or after the end of every caption event. -/
theorem cta_never_precedes_captions (a : AlignmentData) (topic : String)
    (pause : ℚ) (maxW : Nat) (out : KaraokeOut)
    (hs : a.character_start_times_seconds.Pairwise (· ≤ ·))
    (he : a.character_end_times_seconds.Pairwise (· ≤ ·))
    (_hp : 0 ≤ pause)
    (hok : generate_ass_karaoke a topic pause maxW = .ok out) :
    ((out.events.map CaptionEvent.s).Pairwise (· ≤ ·)) ∧
    ∀ ev ∈ out.events, ev.e ≤ out.ctaStart := by
  unfold generate_ass_karaoke at hok
  simp only [Bind.bind, Except.bind] at hok
  cases hseg : segmentWords a with
  | error er => rw [hseg] at hok; cases hok
  | ok words =>
    rw [hseg] at hok
    simp only at hok
    cases hL : a.character_end_times_seconds.getLast? with
    | none => rw [hL] at hok; cases hok
    | some L =>
      rw [hL] at hok
      simp only [Except.ok.injEq] at hok
      subst hok
      obtain ⟨hsort, hstops⟩ := segmentWords_sorted hs hseg
      have hres := buildLoop_inv maxW (fun q => q ≤ L) words [] []
        (by simpa using hsort) (by simp) (by simp) (by simp)
        (by
          intro w hw
          simp only [List.nil_append] at hw
          exact le_getLast_of_pairwise he hL _ (hstops w hw))
      exact ⟨hres.1, fun ev hev => hres.2 ev hev⟩

/-- C9 witness: the guarantee instantiated on Scenario A. -/
theorem cta_never_precedes_captions_witness :
    ((scenarioAOut.events.map CaptionEvent.s).Pairwise (· ≤ ·)) ∧
    ∀ ev ∈ scenarioAOut.events, ev.e ≤ scenarioAOut.ctaStart := by
  have h := cta_never_precedes_captions scenarioA "LIKE & FOLLOW FOR MORE!" (3/2) 4
    scenarioAOut
    (by norm_num [scenarioA, List.pairwise_cons])
    (by norm_num [scenarioA, List.pairwise_cons])
    (by norm_num)
    (by
      norm_num +decide [generate_ass_karaoke, segmentWords, scenarioA, segLoop, pyFalsy,
        pyIsSpace, pyStrip, allowedChar, normalizeWord, wordHI, wordTHERE, List.dropWhile,
        buildEvents, buildLoop, create_line, hasFlushPunct, pyUpper, Bind.bind, Except.bind,
        scenarioAOut])
  exact h

/-- C2 (amended): within any caption event whose consecutive words are
contiguous (each word starts exactly where the previous one stopped), the
per-word durations sum to `event.end - event.start`; in general the sum
falls short by the inter-word gaps, as the counterexample shows. -/
theorem event_durations_sum_of_contiguous (a : AlignmentData) (topic : String)
    (pause : ℚ) (maxW : Nat) (out : KaraokeOut)
    (hok : generate_ass_karaoke a topic pause maxW = .ok out)
    (ev : CaptionEvent) (hev : ev ∈ out.events)
    (hcontig : List.Chain' (fun w w' => w'.start = w.stop) ev.chunk) :
    (per_word_durations ev).sum = ev.e - ev.s := by
  unfold generate_ass_karaoke at hok
  simp only [Bind.bind, Except.bind] at hok
  cases hseg : segmentWords a with
  | error er => rw [hseg] at hok; cases hok
  | ok words =>
    rw [hseg] at hok
    simp only at hok
    cases hL : a.character_end_times_seconds.getLast? with
    | none => rw [hL] at hok; cases hok
    | some L =>
      rw [hL] at hok
      simp only [Except.ok.injEq] at hok
      subst hok
      have hwf := buildLoop_wf maxW words [] [] (by simp) ev hev
      have hsum := sum_durs_of_contiguous ev.chunk hcontig
      rw [hwf]
      simpa [per_word_durations, create_line] using hsum

/-- C2 witness: Scenario A's single event is contiguous and its per-word
durations sum to its span. -/
theorem event_durations_sum_witness :
    (per_word_durations ⟨[wordHI, wordTHERE], 1/10, 9/10⟩).sum =
      (⟨[wordHI, wordTHERE], (1 : ℚ)/10, 9/10⟩ : CaptionEvent).e -
      (⟨[wordHI, wordTHERE], (1 : ℚ)/10, 9/10⟩ : CaptionEvent).s := by
  apply event_durations_sum_of_contiguous scenarioA "LIKE & FOLLOW FOR MORE!" (3/2) 4
    scenarioAOut
    (by
      norm_num +decide [generate_ass_karaoke, segmentWords, scenarioA, segLoop, pyFalsy,
        pyIsSpace, pyStrip, allowedChar, normalizeWord, wordHI, wordTHERE, List.dropWhile,
        buildEvents, buildLoop, create_line, hasFlushPunct, pyUpper, Bind.bind, Except.bind,
        scenarioAOut])
    ⟨[wordHI, wordTHERE], 1/10, 9/10⟩
    (by simp [scenarioAOut])
    (by norm_num [wordHI, wordTHERE, List.chain'_cons])

/-- Invariant of the segmentation scan for C6: every emitted word arises
from a nonempty, whitespace-free raw character run (the `cur_word` at its
boundary), whose normalization the word's text is. -/
lemma segLoop_raw (starts ends : List ℚ) (n : Nat) :
    ∀ (cs : List Char) (i : Nat) (st : SegSt) (res : List Word),
      (∀ c ∈ st.cur, pyIsSpace c = false) →
      (∀ w ∈ st.words, ∃ raw, raw ≠ [] ∧ (∀ c ∈ raw, pyIsSpace c = false) ∧
        w.text = normalizeWord raw) →
      segLoop starts ends n i cs st = .ok res →
      ∀ w ∈ res, ∃ raw, raw ≠ [] ∧ (∀ c ∈ raw, pyIsSpace c = false) ∧
        w.text = normalizeWord raw := by
  intro cs
  induction cs with
  | nil =>
    intro i st res hcur hw hok
    simp only [segLoop, Except.ok.injEq] at hok
    subst hok
    exact hw
  | cons ch rest ih =>
    intro i st res hcur hw hok
    simp only [segLoop] at hok
    cases hws : (if pyFalsy st.ws then starts[i]? else st.ws) with
    | none => rw [hws] at hok; cases hok
    | some wsv =>
      rw [hws] at hok
      simp only at hok
      by_cases hb : (pyIsSpace ch || i == n - 1) = true
      · rw [if_pos hb] at hok
        cases he : ends[i]? with
        | none => rw [he] at hok; cases hok
        | some e =>
          rw [he] at hok
          simp only at hok
          by_cases hemp : pyStrip st.cur = []
          · rw [if_pos hemp] at hok
            exact ih (i + 1) ⟨st.words, [], none⟩ res (by simp) hw hok
          · rw [if_neg hemp] at hok
            refine ih (i + 1) ⟨st.words ++ [⟨normalizeWord st.cur, wsv, e⟩], [], none⟩
              res (by simp) ?_ hok
            intro w hwm
            rcases List.mem_append.mp hwm with h | h
            · exact hw w h
            · rcases List.mem_singleton.mp h with rfl
              refine ⟨st.cur, ?_, hcur, rfl⟩
              intro hnil
              exact hemp (by rw [hnil]; rfl)
      · rw [if_neg hb] at hok
        have hb' : (pyIsSpace ch || (i == n - 1)) = false := Bool.eq_false_iff.mpr hb
        have hchsp : pyIsSpace ch = false := (Bool.or_eq_false_iff.mp hb').1
        refine ih (i + 1) ⟨st.words, st.cur ++ [ch], some wsv⟩ res ?_ hw hok
        intro c hc
        rcases List.mem_append.mp hc with h | h
        · exact hcur c h
        · rcases List.mem_singleton.mp h with rfl
          exact hchsp

/-- C6 (amended): a word is dropped exactly when its RAW accumulated text is
empty (consecutive whitespace, or the final character directly following a
boundary); every emitted word's text is the normalization of a nonempty
whitespace-free raw run — which may itself be empty, so words of pure
stripped punctuation are kept with empty text (see the counterexample). -/
theorem emitted_words_from_nonempty_raw (a : AlignmentData) {ws : List Word}
    (hok : segmentWords a = .ok ws) :
    ∀ w ∈ ws, ∃ raw, raw ≠ [] ∧ (∀ c ∈ raw, pyIsSpace c = false) ∧
      w.text = normalizeWord raw :=
  segLoop_raw _ _ _ a.characters 0 ⟨[], [], none⟩ ws (by simp) (by simp) hok

/-- C6 witness: the amended guarantee instantiated on the `"@ A "`
alignment, at its first word, whose normalized text is empty yet whose raw
run is the nonempty `['@']`. -/
theorem emitted_words_from_nonempty_raw_witness :
    ∃ raw, raw ≠ [] ∧ (∀ c ∈ raw, pyIsSpace c = false) ∧
      Word.text ⟨"", 1, 3⟩ = normalizeWord raw :=
  @emitted_words_from_nonempty_raw punctOnlyA [⟨"", 1, 3⟩, ⟨"A", 3, 5⟩]
    (by
      norm_num +decide [segmentWords, punctOnlyA, segLoop, pyFalsy, pyIsSpace, pyStrip,
        allowedChar, normalizeWord, List.dropWhile])
    ⟨"", 1, 3⟩ (by simp)

lemma wsUpd_some (ws : Option ℚ) (x : ℚ) : ∃ v, wsUpd ws x = some v := by
  cases ws with
  | none => exact ⟨x, rfl⟩
  | some v =>
    by_cases h : pyFalsy (some v) = true
    · exact ⟨x, by simp [wsUpd, h]⟩
    · exact ⟨v, by simp [wsUpd, h]⟩

/-- The value read on line 30 is exactly one `wsUpd` step. -/
lemma seg_scrutinee (st : SegSt) {starts : List ℚ} {i : Nat} (h : i < starts.length) :
    (if pyFalsy st.ws then starts[i]? else st.ws) = wsUpd st.ws starts[i] := by
  by_cases hf : pyFalsy st.ws = true
  · simp [hf, wsUpd, List.getElem?_eq_getElem h]
  · simp [hf, wsUpd]

/-- Folding the line-30 update over a list of start times from a falsy seed
yields the first nonzero entry (or 0); from a truthy seed it is inert. -/
lemma foldl_wsUpd_spec :
    ∀ (l : List ℚ) (ws : Option ℚ),
      (pyFalsy ws = true → optVal (l.foldl wsUpd ws) = firstNonzero l) ∧
      (pyFalsy ws = false → l.foldl wsUpd ws = ws) := by
  intro l
  induction l with
  | nil =>
    intro ws
    constructor
    · intro hf
      cases ws with
      | none => rfl
      | some v =>
        have hv : v = 0 := by simpa [pyFalsy] using hf
        simp [optVal, hv, firstNonzero]
    · intro _; rfl
  | cons x t ih =>
    intro ws
    constructor
    · intro hf
      simp only [List.foldl_cons]
      have hws : wsUpd ws x = some x := by simp [wsUpd, hf]
      rw [hws]
      by_cases hx : x = 0
      · subst hx
        have h0 : pyFalsy (some (0 : ℚ)) = true := by simp [pyFalsy]
        rw [(ih (some 0)).1 h0]
        simp [firstNonzero]
      · have h0 : pyFalsy (some x) = false := by simp [pyFalsy, hx]
        rw [(ih (some x)).2 h0]
        simp [optVal, firstNonzero, hx]
    · intro hf
      simp only [List.foldl_cons]
      have hws : wsUpd ws x = ws := by simp [wsUpd, hf]
      rw [hws]
      exact (ih ws).2 hf

/-- Closed form of the scan on a single word followed by a space: the
recorded start is the line-30 update folded over ALL the word's character
start times (the re-assignment continues through the boundary character
while the accumulated start stays falsy), and the end is the boundary
character's end time. -/
lemma segLoop_one_word (starts ends : List ℚ) (n : Nat)
    (hls : starts.length = n) (hle : ends.length = n) :
    ∀ (cs : List Char) (i : Nat) (st : SegSt),
      (∀ c ∈ cs, pyIsSpace c = false) →
      i + cs.length + 1 = n →
      segLoop starts ends n i (cs ++ [' ']) st =
        .ok (st.words ++ (if pyStrip (st.cur ++ cs) = [] then []
          else [⟨normalizeWord (st.cur ++ cs),
                 optVal ((starts.drop i).foldl wsUpd st.ws),
                 ends.getD (n - 1) 0⟩])) := by
  intro cs
  induction cs with
  | nil =>
    intro i st _ hn
    have hn' : i + 1 = n := by simpa using hn
    have hi : i = n - 1 := by omega
    have hilt : i < starts.length := by omega
    have hielt : i < ends.length := by omega
    simp only [List.nil_append, segLoop]
    rw [seg_scrutinee st hilt]
    obtain ⟨v, hv⟩ := wsUpd_some st.ws starts[i]
    rw [hv]
    simp only
    rw [if_pos (by simp [pyIsSpace] : (pyIsSpace ' ' || (i == n - 1)) = true)]
    rw [List.getElem?_eq_getElem hielt]
    simp only [segLoop]
    have hdrop : starts.drop i = [starts[i]] := by
      rw [List.drop_eq_getElem_cons hilt]
      have hnil : starts.drop (i + 1) = [] := by
        apply List.drop_eq_nil_of_le
        omega
      rw [hnil]
    have hval : optVal ((starts.drop i).foldl wsUpd st.ws) = v := by
      rw [hdrop, List.foldl_cons, List.foldl_nil, hv]
      rfl
    have hend : ends[n - 1]?.getD 0 = ends[i] := by
      rw [← hi, List.getElem?_eq_getElem hielt]
      rfl
    by_cases hemp : pyStrip st.cur = [] <;>
      simp [hemp, hval, hend, List.getD]
  | cons c cs ihc =>
    intro i st hcs hn
    have hn' : i + cs.length + 2 = n := by simpa [Nat.add_comm, Nat.add_left_comm] using hn
    have hilt : i < starts.length := by omega
    have hcsp : pyIsSpace c = false := hcs c (List.mem_cons_self c cs)
    simp only [List.cons_append, segLoop]
    rw [seg_scrutinee st hilt]
    obtain ⟨v, hv⟩ := wsUpd_some st.ws starts[i]
    rw [hv]
    simp only
    rw [if_neg (by
      simp only [hcsp, Bool.false_or, beq_iff_eq]
      omega)]
    simp only [List.append_eq]
    rw [ihc (i + 1) ⟨st.words, st.cur ++ [c], some v⟩
      (fun c' hc' => hcs c' (List.mem_cons_of_mem c hc')) (by omega)]
    have hfold : (starts.drop i).foldl wsUpd st.ws =
        (starts.drop (i + 1)).foldl wsUpd (some v) := by
      rw [List.drop_eq_getElem_cons hilt, List.foldl_cons, hv]
    have hcur : (st.cur ++ [c]) ++ cs = st.cur ++ (c :: cs) := by simp
    rw [hcur, hfold]

/-- C10: the segmenter treats a word-start of exactly 0.0 as unset (line 30
tests falsiness, not `None`), so for a single word the recorded start is the
start time of the first character — including the trailing boundary
character — whose start time is nonzero (0 when every start is zero),
re-assigned on each character while the accumulated start is 0.0.  In
particular, a word whose first character starts at 0.0 is NOT stamped with
its first non-whitespace character's start time. -/
theorem zero_word_start_treated_as_unset (cs : List Char) (starts ends : List ℚ)
    (hcs : cs ≠ []) (hnsp : ∀ c ∈ cs, pyIsSpace c = false)
    (hls : starts.length = cs.length + 1) (hle : ends.length = cs.length + 1) :
    segmentWords ⟨cs ++ [' '], starts, ends⟩ =
      .ok [⟨normalizeWord cs, firstNonzero starts, ends.getD cs.length 0⟩] := by
  unfold segmentWords
  simp only
  have hlen : (cs ++ [' ']).length = cs.length + 1 := by simp
  rw [hlen,
    segLoop_one_word starts ends (cs.length + 1) hls hle cs 0 ⟨[], [], none⟩ hnsp
      (by omega)]
  have hstrip : pyStrip ([] ++ cs) = cs := by
    simpa using pyStrip_of_no_space hnsp
  rw [hstrip, if_neg hcs, List.drop_zero, (foldl_wsUpd_spec starts none).1 rfl]
  simp

/-- C10 witness: for the word `"HI"` whose first two characters start at
0.0, the recorded start is 5 — the trailing space's start time, the first
nonzero entry — not 0.0. -/
theorem zero_word_start_witness :
    segmentWords ⟨['H', 'I', ' '], [0, 0, 5], [1, 2, 3]⟩ =
      .ok [⟨"HI", 5, 3⟩] := by
  have h := zero_word_start_treated_as_unset ['H', 'I'] [0, 0, 5] [1, 2, 3]
    (by decide) (by decide) (by decide) (by decide)
  simpa [normalizeWord, pyStrip, allowedChar, pyIsSpace, firstNonzero,
    List.dropWhile] using h

/-- C3 witness: the dangling-label facts at a concrete pause (1.5s) and
total duration (13.5s). -/
theorem music_mix_consumes_undefined_label_witness :
    audio_filter 3 4 (3/2) ((27 : ℚ)/2 - 1) true =
      [ ⟨["3:a"], [.apad (3/2), .asplit 2], ["vo_p1", "vo_p2"]⟩,
        ⟨["4:a"], [.volume (12/100), .aloop (-1) 2000000000,
                   .afadeOut ((27 : ℚ)/2 - 1) 1], ["bg_loop"]⟩,
        ⟨["bg_loop", "vo_p1"], [.sidechaincompress (1/20) 12 20 200], ["bg_duck"]⟩,
        ⟨["vo_pad2", "bg_duck"], [.amix 2 true [1, 1]], ["a_final"]⟩ ] ∧
    "vo_pad2" ∈ graphInputs (audio_filter 3 4 (3/2) ((27 : ℚ)/2 - 1) true) ∧
    "vo_pad2" ∉ graphOutputs (audio_filter 3 4 (3/2) ((27 : ℚ)/2 - 1) true) ∧
    "vo_pad2" ∉ ["3:a", "4:a"] ∧
    "vo_p2" ∈ graphOutputs (audio_filter 3 4 (3/2) ((27 : ℚ)/2 - 1) true) ∧
    "vo_p2" ∉ graphInputs (audio_filter 3 4 (3/2) ((27 : ℚ)/2 - 1) true) :=
  music_mix_consumes_undefined_label (3/2) (27/2)
